import Mathlib

/-!
Shallow embedding of the attainment computation engine of the OBE portal
backend (`api/views/attainment.py`, `api/views/reporting.py`) over the data
model of `api/models.py`.  JSON numeric values (`maxMarks`, `marks`) are
modelled as rationals; Python dicts are modelled as association lists with
dict insertion-order semantics (a new key is appended at the end, an existing
key is updated in place).
-/

namespace OBE

/-- A question record inside `Assessment.questions` (a JSON list): question
identifier `q`, its `maxMarks`, and the list `coIds` of course-outcome ids the
question evaluates. -/
structure Question where
  q : Nat
  maxMarks : ℚ
  coIds : List String
deriving Repr, DecidableEq

/-- A score record inside `Mark.scores` (a JSON list): question identifier `q`
and the `marks` earned. -/
structure ScoreEntry where
  q : Nat
  marks : ℚ
deriving Repr, DecidableEq

/-- The `Assessment` model (models.py lines 204-219): primary key `id`,
foreign key `section`, and the JSON `questions` list. -/
structure Assessment where
  id : String
  sectionId : String
  questions : List Question
deriving Repr, DecidableEq

/-- The `Mark` model (models.py lines 221-228): foreign keys `student` and
`assessment` (unique together) and the JSON `scores` list. -/
structure Mark where
  studentId : String
  assessmentId : String
  scores : List ScoreEntry
deriving Repr, DecidableEq

/-- The `Program` model (models.py lines 42-52): primary key `id`. -/
structure Program where
  id : String
deriving Repr, DecidableEq

/-- The `Course` model (models.py lines 94-118): primary key `id` and foreign
key `program`. -/
structure Course where
  id : String
  programId : String
deriving Repr, DecidableEq

/-- The `Section` model (models.py lines 131-141): primary key `id`, `name`,
and foreign keys `program` and `batch`.  Note that the model declares no
`course` field. -/
structure ModelSection where
  id : String
  name : String
  programId : String
  batchId : String
deriving Repr, DecidableEq

/-- The `Student` model (models.py lines 143-158): primary key `id`, foreign
key `program`, nullable foreign key `section`. -/
structure Student where
  id : String
  programId : String
  sectionId : Option String
deriving Repr, DecidableEq

/-- The `Enrollment` model (models.py lines 160-167): foreign keys `course`
and `student` (unique together) and a nullable foreign key `section`. -/
structure Enrollment where
  courseId : String
  studentId : String
  sectionId : Option String
deriving Repr, DecidableEq

/-- The `CourseOutcome` model (models.py lines 169-179): primary key `id` and
foreign key `course`. -/
structure CourseOutcome where
  id : String
  courseId : String
deriving Repr, DecidableEq

/-- The `CoPoMapping` model (models.py lines 193-202): foreign keys `course`,
`co`, `po` and the integer `level`. -/
structure CoPoMapping where
  courseId : String
  coId : String
  poId : String
  level : Nat
deriving Repr, DecidableEq

/-- The relational store the views read from (the Django ORM tables). -/
structure Store where
  programs : List Program
  courses : List Course
  sections : List ModelSection
  students : List Student
  enrollments : List Enrollment
  courseOutcomes : List CourseOutcome
  copoMappings : List CoPoMapping
  assessments : List Assessment
  marks : List Mark
  /-- Modelled from the spec: the spec states "Assessment: belongs to one
  Section (which belongs to a Course)", and attainment.py line 42 queries
  `Assessment.objects.filter(section__course=course)`, but models.py's
  `Section` declares no `course` field, so the section-to-course link that
  the views rely on is absent from the schema.  We model it as an explicit
  association from section id to course id. -/
  sectionCourse : List (String × String)
deriving Repr, DecidableEq

/-! ### Association-list primitives (Python dict semantics) -/

/-- Value stored under a key, if the key is present (first occurrence). -/
def lookup? {α : Type} (m : List (String × α)) (k : String) : Option α :=
  (m.find? (fun p => p.1 == k)).map (fun p => p.2)

/-- Whether a key is present (`k in d` in Python). -/
def hasKey {α : Type} (m : List (String × α)) (k : String) : Bool :=
  m.any (fun p => p.1 == k)

/-- Key list of an association list, in order. -/
def keys {α : Type} (m : List (String × α)) : List String :=
  m.map (fun p => p.1)

/-! ### CO attainment aggregator
(`calculate_co_attainment`, attainment.py lines 40-58 and 77-95; the same
code appears verbatim in both `ProgramAttainmentView` and
`CourseAttainmentView`). -/

/-- Per-CO accumulator record `{'total_marks': ..., 'scored_marks': ...}`
(attainment.py line 51). -/
structure Accum where
  total_marks : ℚ
  scored_marks : ℚ
deriving Repr, DecidableEq

/-- One step of `co_attainment[co_id]['total_marks'] += question['maxMarks']`;
`co_attainment[co_id]['scored_marks'] += score['marks']` preceded by
`if co_id not in co_attainment: co_attainment[co_id] = {0, 0}` (attainment.py
lines 50-53), with dict insertion-order semantics: an absent key is appended
at the end initialised to the added amounts, a present key is updated in
place. -/
def addToCo : List (String × Accum) → String → ℚ → ℚ → List (String × Accum)
  | [], c, x, y => [(c, ⟨x, y⟩)]
  | (k, a) :: rest, c, x, y =>
    if k == c then (k, ⟨a.total_marks + x, a.scored_marks + y⟩) :: rest
    else (k, a) :: addToCo rest c x y

/-- Embeds `next((q for q in assessment.questions if q['q'] == score['q']),
None)` (attainment.py line 47): the first question whose `q` equals the
score's. -/
def findQuestion (qs : List Question) (n : Nat) : Option Question :=
  qs.find? (fun qu => qu.q == n)

/-- Processing of a single score entry (attainment.py lines 47-53): locate the
matching question; if none, do nothing; otherwise add the question's full
`maxMarks` and the score's full `marks` to every CO id in the question's
`coIds`. -/
def processScore (qs : List Question) (m : List (String × Accum))
    (sc : ScoreEntry) : List (String × Accum) :=
  match findQuestion qs sc.q with
  | none => m
  | some qu => qu.coIds.foldl (fun m c => addToCo m c qu.maxMarks sc.marks) m

/-- Processing of one Mark: the loop over its `scores` (attainment.py line 46). -/
def processMark (qs : List Question) (m : List (String × Accum))
    (mk : Mark) : List (String × Accum) :=
  mk.scores.foldl (processScore qs) m

/-- Embeds `Mark.objects.filter(assessment=assessment)` (attainment.py line 44). -/
def marksOf (s : Store) (a : Assessment) : List Mark :=
  s.marks.filter (fun mk => mk.assessmentId == a.id)

/-- Modelled from the spec: resolution of a section's course.  models.py's
`Section` has no `course` foreign key; the spec says a Section belongs to a
Course, which we read off the store's modelled `sectionCourse` association. -/
def sectionCourseOf (s : Store) (secId : String) : Option String :=
  lookup? s.sectionCourse secId

/-- Embeds `Assessment.objects.filter(section__course=course)` (attainment.py line
42), with the section-to-course hop taken from the modelled relation. -/
def assessmentsOfCourse (s : Store) (cid : String) : List Assessment :=
  s.assessments.filter (fun a => sectionCourseOf s a.sectionId == some cid)

/-- Accumulation phase of `calculate_co_attainment` (attainment.py lines
41-53): fold over the course's assessments, their marks, and each mark's
scores. -/
def accumulateCo (s : Store) (cid : String) : List (String × Accum) :=
  (assessmentsOfCourse s cid).foldl
    (fun m a => (marksOf s a).foldl (processMark a.questions) m) []

/-- Reduction phase (attainment.py lines 55-56): each accumulator becomes
`scored_marks / total_marks * 100` if `total_marks > 0`, else `0`. -/
def reduce (m : List (String × Accum)) : List (String × ℚ) :=
  m.map (fun p =>
    (p.1, if p.2.total_marks > 0
          then p.2.scored_marks / p.2.total_marks * 100 else 0))

/-- Embeds `calculate_co_attainment(course)` (attainment.py lines 40-58): course id
to the association from CO id to percentage attainment. -/
def calculate_co_attainment (s : Store) (cid : String) : List (String × ℚ) :=
  reduce (accumulateCo s cid)

/-! ### PO attainment roll-up (`ProgramAttainmentView.get`, attainment.py
lines 10-38). -/

/-- One element of a PO bucket's `co_attainments` list (attainment.py lines
29-33). -/
structure CoEntry where
  co : String
  attainment : ℚ
  mapping_level : Nat
deriving Repr, DecidableEq

/-- Embeds `po_attainment[po.id]['co_attainments'].append(...)` preceded by
`if po.id not in po_attainment: po_attainment[po.id] = {...,'co_attainments': []}`
(attainment.py lines 26-33): dict insertion-order semantics, the bucket is
created empty on first encounter of the PO id and the entry appended at its
end. -/
def appendCoEntry : List (String × List CoEntry) → String → CoEntry →
    List (String × List CoEntry)
  | [], p, e => [(p, [e])]
  | (k, es) :: rest, p, e =>
    if k == p then (k, es ++ [e]) :: rest
    else (k, es) :: appendCoEntry rest p e

/-- Embeds `CoPoMapping.objects.filter(course=course)` (attainment.py line 22). -/
def mappingsOf (s : Store) (cid : String) : List CoPoMapping :=
  s.copoMappings.filter (fun m => m.courseId == cid)

/-- Embeds `Course.objects.filter(program=program)` (attainment.py line 17). -/
def coursesOf (s : Store) (pid : String) : List Course :=
  s.courses.filter (fun c => c.programId == pid)

/-- The entry appended for one mapping row (attainment.py lines 29-33):
`co_attainment.get(mapping.co.id, 0)` defaults a CO id absent from the
aggregator's output to attainment 0. -/
def entryOf (coAtt : List (String × ℚ)) (m : CoPoMapping) : CoEntry :=
  { co := m.coId, attainment := (lookup? coAtt m.coId).getD 0,
    mapping_level := m.level }

/-- The `po_attainment` dict built by `ProgramAttainmentView.get`
(attainment.py lines 18-33): for each course of the program, run the CO
aggregator, then append one entry per CoPoMapping row into the bucket of its
PO. -/
def po_attainment (s : Store) (pid : String) : List (String × List CoEntry) :=
  (coursesOf s pid).foldl
    (fun bs c =>
      (mappingsOf s c.id).foldl
        (fun bs m => appendCoEntry bs m.poId
          (entryOf (calculate_co_attainment s c.id) m)) bs)
    []

/-! ### Entity lookups and the three view entry points.  `Model.objects.get`
on a primary key either returns the unique row or raises `DoesNotExist`,
which each view catches and turns into a 404 response; we model the outcome
as `Except` with the view's error message. -/

def findProgram (s : Store) (pid : String) : Option Program :=
  s.programs.find? (fun p => p.id == pid)

def findCourse (s : Store) (cid : String) : Option Course :=
  s.courses.find? (fun c => c.id == cid)

def findStudent (s : Store) (sid : String) : Option Student :=
  s.students.find? (fun st => st.id == sid)

/-- Embeds `ProgramAttainmentView.get` (attainment.py lines 10-38): 404 when the
program id does not resolve, otherwise the program record and the
`po_attainment` dict. -/
def programAttainmentGet (s : Store) (pid : String) :
    Except String (Program × List (String × List CoEntry)) :=
  match findProgram s pid with
  | none => .error "Program not found"
  | some p => .ok (p, po_attainment s pid)

/-- Embeds `CourseAttainmentView.get` (attainment.py lines 63-75): 404 when the
course id does not resolve, otherwise the course record and the
`co_attainment` dict. -/
def courseAttainmentGet (s : Store) (cid : String) :
    Except String (Course × List (String × ℚ)) :=
  match findCourse s cid with
  | none => .error "Course not found"
  | some c => .ok (c, calculate_co_attainment s cid)

/-! ### Student-scoped variant (`StudentAttainmentView.get`, attainment.py
lines 100-133).  The accumulation body (lines 116-123) repeats the
course-level code verbatim, so it is embedded here with its own inline
lambdas, mirroring the source's duplication. -/

/-- Embeds `student.enrollment_set.all()` (attainment.py line 107). -/
def enrollmentsOf (s : Store) (sid : String) : List Enrollment :=
  s.enrollments.filter (fun e => e.studentId == sid)

/-- The accumulation loop of `StudentAttainmentView.get` (attainment.py lines
108-125): per enrollment, `Assessment.objects.filter(section__course=course,
section=enrollment.section)`; per assessment, `Mark.objects.get(assessment=
assessment, student=student)` with `Mark.DoesNotExist` silently passed; then
the same per-score accumulation as the course-level aggregator. -/
def studentCoAccum (s : Store) (sid : String) : List (String × Accum) :=
  (enrollmentsOf s sid).foldl
    (fun acc e =>
      (s.assessments.filter (fun a =>
          sectionCourseOf s a.sectionId == some e.courseId &&
          some a.sectionId == e.sectionId)).foldl
        (fun acc a =>
          match s.marks.find? (fun mk =>
              mk.assessmentId == a.id && mk.studentId == sid) with
          | none => acc
          | some mk =>
            mk.scores.foldl
              (fun acc sc =>
                match a.questions.find? (fun qu => qu.q == sc.q) with
                | none => acc
                | some qu =>
                  qu.coIds.foldl
                    (fun acc c => addToCo acc c qu.maxMarks sc.marks) acc)
              acc)
        acc)
    []

/-- The reduction loop of `StudentAttainmentView.get` (attainment.py lines
127-128), verbatim copy of the course-level reduction. -/
def studentCoAttainment (s : Store) (sid : String) : List (String × ℚ) :=
  (studentCoAccum s sid).map (fun p =>
    (p.1, if p.2.total_marks > 0
          then p.2.scored_marks / p.2.total_marks * 100 else 0))

/-- Embeds `StudentAttainmentView.get` (attainment.py lines 100-133): 404 when the
student id does not resolve, otherwise the student record and the student's
own `co_attainment` dict. -/
def studentAttainmentGet (s : Store) (sid : String) :
    Except String (Student × List (String × ℚ)) :=
  match findStudent s sid with
  | none => .error "Student not found"
  | some st => .ok (st, studentCoAttainment s sid)

/-! ### Report views (`reporting.py`).  Both report views instantiate the
corresponding attainment view directly (`ProgramAttainmentView()`,
`CourseAttainmentView()`, reporting.py lines 18 and 38) and call its `get`.
Outside Django's `dispatch`/`setup`, the delegate's `kwargs` attribute is
never assigned, and Django's `View.__init__` receives no keyword arguments
here, so the delegate's first statement `self.kwargs.get(...)`
(attainment.py lines 11 and 64) raises AttributeError before any store
access. -/

/-- Embeds the delegated call `CourseAttainmentView().get(request, *args,
**kwargs)` (reporting.py line 39): the directly-instantiated view has no
`kwargs` attribute, so the access `self.kwargs` (attainment.py line 64)
raises AttributeError before the course id or the store is consulted.  The
crash is modelled as an error result. -/
def courseAttainmentGetUndispatched :
    Except String (Course × List (String × ℚ)) :=
  .error "AttributeError: kwargs"

/-- Embeds the delegated call `ProgramAttainmentView().get(request, *args,
**kwargs)` (reporting.py line 19): the same uninitialized `kwargs` crash as
the course delegate, at attainment.py line 11. -/
def programAttainmentGetUndispatched :
    Except String (Program × List (String × List CoEntry)) :=
  .error "AttributeError: kwargs"

/-- Embeds `CourseReportView.get` (reporting.py lines 28-46): its own
existence check (its own `kwargs` is set by normal dispatch), then the
delegated `CourseAttainmentView().get` call; the `course` and
`co_attainment` fields of the delegate's payload would be repackaged, but
the delegate raises before producing one and the exception propagates
uncaught. -/
def courseReportGet (s : Store) (cid : String) :
    Except String (Course × List (String × ℚ)) :=
  match findCourse s cid with
  | none => .error "Course not found"
  | some _ =>
    match courseAttainmentGetUndispatched with
    | .error e => .error e
    | .ok d => .ok (d.1, d.2)

/-- Embeds `ProgramReportView.get` (reporting.py lines 8-26): its own
existence check, then the delegated `ProgramAttainmentView().get` call; the
`program` and `po_attainment` fields of the delegate's payload would be
repackaged, but the delegate raises before producing one and the exception
propagates uncaught. -/
def programReportGet (s : Store) (pid : String) :
    Except String (Program × List (String × List CoEntry)) :=
  match findProgram s pid with
  | none => .error "Program not found"
  | some _ =>
    match programAttainmentGetUndispatched with
    | .error e => .error e
    | .ok d => .ok (d.1, d.2)

/-! ### The Section model's resolvable field names (for the schema/query
mismatch). -/

/-- The keywords the ORM can resolve on the `Section` model: its declared
fields (models.py lines 131-141: `id`, `name`, `program`, `batch`) and the
reverse accessors of foreign keys targeting `Section` (`students` from
Student.section, `assessments` from Assessment.section, `enrollment` from
Enrollment.section). -/
def sectionResolvableKeywords : List String :=
  ["id", "name", "program", "batch", "students", "assessments", "enrollment"]

/-- The relation name the aggregator's assessment query dereferences on
`Section`: attainment.py lines 42, 79 and 112 filter on `section__course`. -/
def aggregatorSectionKeyword : String := "course"

/-! ### Contribution events.  Flattening the aggregator's four nested loops
into one list of events `(co id, maxMarks, marks)`, one event per occurrence
of a CO id in the `coIds` of a question matched by a score entry. -/

/-- One accumulation step applied to an event. -/
def applyEvent (m : List (String × Accum)) (e : String × ℚ × ℚ) :
    List (String × Accum) :=
  addToCo m e.1 e.2.1 e.2.2

/-- Events generated by one score entry. -/
def scoreEvents (qs : List Question) (sc : ScoreEntry) :
    List (String × ℚ × ℚ) :=
  match findQuestion qs sc.q with
  | none => []
  | some qu => qu.coIds.map (fun c => (c, qu.maxMarks, sc.marks))

/-- Events generated by one mark. -/
def markEvents (qs : List Question) (mk : Mark) : List (String × ℚ × ℚ) :=
  mk.scores.flatMap (scoreEvents qs)

/-- Events generated by one assessment and its marks. -/
def assessmentEvents (s : Store) (a : Assessment) : List (String × ℚ × ℚ) :=
  (marksOf s a).flatMap (markEvents a.questions)

/-- All events of one course's aggregation. -/
def courseEvents (s : Store) (cid : String) : List (String × ℚ × ℚ) :=
  (assessmentsOfCourse s cid).flatMap (assessmentEvents s)

/-- Sum of the `maxMarks` components of the events carrying a given CO id. -/
def totalOf (es : List (String × ℚ × ℚ)) (c : String) : ℚ :=
  ((es.filter (fun e => e.1 == c)).map (fun e => e.2.1)).sum

/-- Sum of the `marks` components of the events carrying a given CO id. -/
def scoredOf (es : List (String × ℚ × ℚ)) (c : String) : ℚ :=
  ((es.filter (fun e => e.1 == c)).map (fun e => e.2.2)).sum

/-- Accumulator value under a key, defaulting to the zero record. -/
def getAcc (m : List (String × Accum)) (k : String) : Accum :=
  (lookup? m k).getD ⟨0, 0⟩

/-! ### Matched-pair contributions.  One `(maxMarks, marks)` pair per matched
(question, score) pair whose question's `coIds` contains the CO id — the
quantity the spec's accumulation property P1 talks about. -/

/-- Contribution of one score entry to a CO id: the matched question's
`(maxMarks, marks)` if the question lists the id, nothing otherwise. -/
def scoreContribs (qs : List Question) (c : String) (sc : ScoreEntry) :
    List (ℚ × ℚ) :=
  match findQuestion qs sc.q with
  | none => []
  | some qu => if c ∈ qu.coIds then [(qu.maxMarks, sc.marks)] else []

/-- All matched-pair contributions to a CO id across a course's assessments
and marks. -/
def courseContribs (s : Store) (cid : String) (c : String) : List (ℚ × ℚ) :=
  (assessmentsOfCourse s cid).flatMap (fun a =>
    (marksOf s a).flatMap (fun mk =>
      mk.scores.flatMap (scoreContribs a.questions c)))

/-! ### PO-bucket helpers. -/

/-- One roll-up step applied to a `(po id, entry)` event. -/
def applyBucket (bs : List (String × List CoEntry)) (e : String × CoEntry) :
    List (String × List CoEntry) :=
  appendCoEntry bs e.1 e.2

/-- The mapping rows the roll-up iterates, in iteration order: one
`(course id, mapping)` pair per CoPoMapping row of each course of the
program. -/
def poRows (s : Store) (pid : String) : List (String × CoPoMapping) :=
  (coursesOf s pid).flatMap (fun c =>
    (mappingsOf s c.id).map (fun m => (c.id, m)))

/-- The roll-up's `(po id, entry)` events, in iteration order. -/
def poEvents (s : Store) (pid : String) : List (String × CoEntry) :=
  (coursesOf s pid).flatMap (fun c =>
    (mappingsOf s c.id).map (fun m =>
      (m.poId, entryOf (calculate_co_attainment s c.id) m)))

/-- Bucket contents under a PO id, defaulting to the empty bucket. -/
def getBucket (bs : List (String × List CoEntry)) (k : String) :
    List CoEntry :=
  (lookup? bs k).getD []

/-! ### Concrete stores used as witnesses and counterexamples. -/

/-- A store with no entities at all. -/
def emptyStore : Store :=
  { programs := [], courses := [], sections := [], students := [],
    enrollments := [], courseOutcomes := [], copoMappings := [],
    assessments := [], marks := [], sectionCourse := [] }

/-- One program, course, section, student, enrollment; one assessment with a
single question worth 10 marks evaluating CO1; one mark scoring 8. -/
def wStore : Store :=
  { programs := [⟨"P1"⟩]
    courses := [⟨"C1", "P1"⟩]
    sections := [⟨"S1", "A", "P1", "B1"⟩]
    students := [⟨"ST1", "P1", some "S1"⟩]
    enrollments := [⟨"C1", "ST1", some "S1"⟩]
    courseOutcomes := [⟨"CO1", "C1"⟩]
    copoMappings := [⟨"C1", "CO1", "PO1", 3⟩]
    assessments := [⟨"A1", "S1", [⟨1, 10, ["CO1"]⟩]⟩]
    marks := [⟨"ST1", "A1", [⟨1, 8⟩]⟩]
    sectionCourse := [("S1", "C1")] }

/-- A store whose first question lists CO1 twice in its `coIds`: question 1
(max 10, scored 10) carries `coIds = [CO1, CO1]`, question 2 (max 10,
scored 0) carries `coIds = [CO1]`. -/
def dupStore : Store :=
  { programs := [⟨"P1"⟩]
    courses := [⟨"C1", "P1"⟩]
    sections := [⟨"S1", "A", "P1", "B1"⟩]
    students := []
    enrollments := []
    courseOutcomes := []
    copoMappings := []
    assessments := [⟨"A1", "S1", [⟨1, 10, ["CO1", "CO1"]⟩, ⟨2, 10, ["CO1"]⟩]⟩]
    marks := [⟨"ST1", "A1", [⟨1, 10⟩, ⟨2, 0⟩]⟩]
    sectionCourse := [("S1", "C1")] }

/-- A store with a score of 15 on a question worth 10 marks. -/
def overStore : Store :=
  { programs := [⟨"P1"⟩]
    courses := [⟨"C1", "P1"⟩]
    sections := [⟨"S1", "A", "P1", "B1"⟩]
    students := []
    enrollments := []
    courseOutcomes := []
    copoMappings := []
    assessments := [⟨"A1", "S1", [⟨1, 10, ["CO1"]⟩]⟩]
    marks := [⟨"ST1", "A1", [⟨1, 15⟩]⟩]
    sectionCourse := [("S1", "C1")] }

/-! ### Support lemmas. -/

theorem foldl_flatMap {α β γ : Type} (f : β → List α) (g : γ → α → γ)
    (l : List β) (init : γ) :
    (l.flatMap f).foldl g init =
      l.foldl (fun acc b => (f b).foldl g acc) init := by
  induction l generalizing init with
  | nil => rfl
  | cons b tl ih => simp only [List.flatMap_cons, List.foldl_append,
      List.foldl_cons, ih]

theorem foldl_congr_on {α β : Type} {f g : β → α → β} (l : List α)
    (h : ∀ acc a, a ∈ l → f acc a = g acc a) (init : β) :
    l.foldl f init = l.foldl g init := by
  induction l generalizing init with
  | nil => rfl
  | cons a tl ih =>
    rw [List.foldl_cons, List.foldl_cons, h init a (List.mem_cons_self a tl)]
    exact ih (fun acc b hb => h acc b (List.mem_cons_of_mem a hb)) _

theorem processScore_eq_foldl (qs : List Question)
    (m : List (String × Accum)) (sc : ScoreEntry) :
    processScore qs m sc = (scoreEvents qs sc).foldl applyEvent m := by
  unfold processScore scoreEvents
  cases findQuestion qs sc.q with
  | none => rfl
  | some qu => simp only [List.foldl_map]; rfl

theorem processMark_eq_foldl (qs : List Question)
    (m : List (String × Accum)) (mk : Mark) :
    processMark qs m mk = (markEvents qs mk).foldl applyEvent m := by
  unfold processMark markEvents
  rw [foldl_flatMap]
  exact foldl_congr_on _ (fun m sc _ => processScore_eq_foldl qs m sc) m

theorem accumulateCo_eq_foldl (s : Store) (cid : String) :
    accumulateCo s cid = (courseEvents s cid).foldl applyEvent [] := by
  unfold accumulateCo courseEvents
  rw [foldl_flatMap]
  refine foldl_congr_on _ (fun m a _ => ?_) []
  unfold assessmentEvents
  rw [foldl_flatMap]
  exact foldl_congr_on _ (fun m mk _ => processMark_eq_foldl a.questions m mk) m

theorem lookup?_nil {α : Type} (k : String) :
    lookup? ([] : List (String × α)) k = none := rfl

theorem lookup?_cons {α : Type} (k' : String) (v : α)
    (rest : List (String × α)) (k : String) :
    lookup? ((k', v) :: rest) k =
      if k' == k then some v else lookup? rest k := by
  unfold lookup?
  rw [List.find?_cons]
  cases h : (k' == k) <;> simp [h]

theorem hasKey_nil {α : Type} (k : String) :
    hasKey ([] : List (String × α)) k = false := rfl

theorem hasKey_cons {α : Type} (k' : String) (v : α)
    (rest : List (String × α)) (k : String) :
    hasKey ((k', v) :: rest) k = ((k' == k) || hasKey rest k) := by
  unfold hasKey
  rw [List.any_cons]

theorem lookup?_isSome_eq_hasKey {α : Type} (m : List (String × α))
    (k : String) : (lookup? m k).isSome = hasKey m k := by
  induction m with
  | nil => rfl
  | cons p rest ih =>
    rw [show p = (p.1, p.2) from rfl, lookup?_cons, hasKey_cons]
    cases h : (p.1 == k) <;> simp [h, ih]

theorem lookup?_eq_getD_of_hasKey {α : Type} (m : List (String × α))
    (k : String) (d : α) :
    lookup? m k = if hasKey m k then some ((lookup? m k).getD d) else none := by
  cases hl : lookup? m k with
  | none =>
    have h2 : hasKey m k = false := by rw [← lookup?_isSome_eq_hasKey, hl]; rfl
    simp [h2]
  | some v =>
    have h2 : hasKey m k = true := by rw [← lookup?_isSome_eq_hasKey, hl]; rfl
    simp [h2]

theorem getAcc_nil (k : String) : getAcc [] k = ⟨0, 0⟩ := rfl

theorem getAcc_cons (k' : String) (v : Accum) (rest : List (String × Accum))
    (k : String) :
    getAcc ((k', v) :: rest) k = if k' = k then v else getAcc rest k := by
  unfold getAcc
  rw [lookup?_cons]
  by_cases h : k' = k <;> simp [h]

theorem getAcc_addToCo (m : List (String × Accum)) (c : String) (x y : ℚ)
    (k : String) :
    getAcc (addToCo m c x y) k =
      if c = k
      then ⟨(getAcc m k).total_marks + x, (getAcc m k).scored_marks + y⟩
      else getAcc m k := by
  induction m with
  | nil =>
    by_cases h : c = k <;>
      simp [addToCo, getAcc_cons, getAcc_nil, h]
  | cons p rest ih =>
    obtain ⟨k', v⟩ := p
    by_cases h1 : k' = c
    · by_cases h2 : c = k
      · simp [addToCo, h1, h2, getAcc_cons]
      · have h4 : ¬ k' = k := fun hh => h2 (h1 ▸ hh)
        simp [addToCo, h1, h2, h4, getAcc_cons]
    · have h1b : (k' == c) = false := by simp [h1]
      simp only [addToCo, h1b, Bool.false_eq_true, if_false, getAcc_cons]
      by_cases h2 : k' = k
      · have h3 : ¬ c = k := fun hh => h1 (h2.trans hh.symm)
        simp [h2, h3]
      · simp [h2, ih]

theorem hasKey_addToCo (m : List (String × Accum)) (c : String) (x y : ℚ)
    (k : String) :
    hasKey (addToCo m c x y) k = (hasKey m k || (c == k)) := by
  induction m with
  | nil =>
    unfold addToCo
    rw [hasKey_cons]
    simp [hasKey_nil, Bool.or_comm]
  | cons p rest ih =>
    obtain ⟨k', v⟩ := p
    by_cases h1 : k' = c
    · have h1b : (k' == c) = true := by simp [h1]
      simp only [addToCo, h1b, if_true, hasKey_cons]
      cases h2 : (k' == k)
      · have hck : (c == k) = false := by
          rw [← h1]; exact h2
        simp [hck]
      · simp [h2]
    · have h1b : (k' == c) = false := by simp [h1]
      simp only [addToCo, h1b, Bool.false_eq_true, if_false, hasKey_cons, ih,
        Bool.or_assoc]

theorem totalOf_nil (c : String) : totalOf [] c = 0 := rfl

theorem scoredOf_nil (c : String) : scoredOf [] c = 0 := rfl

theorem totalOf_cons (e : String × ℚ × ℚ) (es : List (String × ℚ × ℚ))
    (c : String) :
    totalOf (e :: es) c =
      if e.1 = c then e.2.1 + totalOf es c else totalOf es c := by
  unfold totalOf
  by_cases h : e.1 = c <;> simp [List.filter_cons, h]

theorem scoredOf_cons (e : String × ℚ × ℚ) (es : List (String × ℚ × ℚ))
    (c : String) :
    scoredOf (e :: es) c =
      if e.1 = c then e.2.2 + scoredOf es c else scoredOf es c := by
  unfold scoredOf
  by_cases h : e.1 = c <;> simp [List.filter_cons, h]

theorem getAcc_foldl (es : List (String × ℚ × ℚ))
    (m : List (String × Accum)) (c : String) :
    getAcc (es.foldl applyEvent m) c =
      ⟨(getAcc m c).total_marks + totalOf es c,
       (getAcc m c).scored_marks + scoredOf es c⟩ := by
  induction es generalizing m with
  | nil => simp [totalOf_nil, scoredOf_nil]
  | cons e tl ih =>
    rw [List.foldl_cons, ih, totalOf_cons, scoredOf_cons]
    show Accum.mk _ _ = _
    rw [show applyEvent m e = addToCo m e.1 e.2.1 e.2.2 from rfl,
      getAcc_addToCo]
    by_cases h : e.1 = c
    · simp [h, add_assoc]
    · simp [h]

theorem hasKey_foldl (es : List (String × ℚ × ℚ))
    (m : List (String × Accum)) (c : String) :
    hasKey (es.foldl applyEvent m) c =
      (hasKey m c || es.any (fun e => e.1 == c)) := by
  induction es generalizing m with
  | nil => simp
  | cons e tl ih =>
    rw [List.foldl_cons, ih, List.any_cons,
      show applyEvent m e = addToCo m e.1 e.2.1 e.2.2 from rfl,
      hasKey_addToCo, Bool.or_assoc]

/-- The accumulation phase computes, per CO id, exactly the sums of the
course's events carrying that id; a CO id appears in the accumulator exactly
when some event carries it. -/
theorem lookup?_accumulateCo (s : Store) (cid : String) (c : String) :
    lookup? (accumulateCo s cid) c =
      if (courseEvents s cid).any (fun e => e.1 == c)
      then some ⟨totalOf (courseEvents s cid) c,
                 scoredOf (courseEvents s cid) c⟩
      else none := by
  rw [accumulateCo_eq_foldl]
  have hk : hasKey ((courseEvents s cid).foldl applyEvent []) c =
      (courseEvents s cid).any (fun e => e.1 == c) := by
    rw [hasKey_foldl]; simp [hasKey_nil]
  have hg : getAcc ((courseEvents s cid).foldl applyEvent []) c =
      ⟨totalOf (courseEvents s cid) c, scoredOf (courseEvents s cid) c⟩ := by
    rw [getAcc_foldl]; simp [getAcc_nil]
  rw [lookup?_eq_getD_of_hasKey _ c (⟨0, 0⟩ : Accum), hk]
  by_cases h : (courseEvents s cid).any (fun e => e.1 == c)
  · simp only [h, if_true]
    rw [show (lookup? ((courseEvents s cid).foldl applyEvent []) c).getD
        ⟨0, 0⟩ = getAcc ((courseEvents s cid).foldl applyEvent []) c from rfl,
      hg]
  · simp [h]

theorem lookup?_map_val {α β : Type} (f : α → β) (m : List (String × α))
    (k : String) :
    lookup? (m.map (fun p => (p.1, f p.2))) k = (lookup? m k).map f := by
  induction m with
  | nil => rfl
  | cons p rest ih =>
    rw [List.map_cons, lookup?_cons, show ((p.1, f p.2) : String × β).1 = p.1
      from rfl, show p = (p.1, p.2) from rfl, lookup?_cons]
    by_cases h : p.1 = k <;> simp [h, ih]

theorem lookup?_reduce (m : List (String × Accum)) (k : String) :
    lookup? (reduce m) k = (lookup? m k).map (fun a =>
      if a.total_marks > 0 then a.scored_marks / a.total_marks * 100 else 0) := by
  unfold reduce
  exact lookup?_map_val
    (fun a => if a.total_marks > 0 then a.scored_marks / a.total_marks * 100
              else 0) m k

/-- The CO aggregator's output at a CO id: present exactly when some event
carries the id, and then equal to the reduced ratio of the event sums. -/
theorem lookup?_calculate (s : Store) (cid : String) (c : String) :
    lookup? (calculate_co_attainment s cid) c =
      if (courseEvents s cid).any (fun e => e.1 == c)
      then some (if totalOf (courseEvents s cid) c > 0
                 then scoredOf (courseEvents s cid) c /
                      totalOf (courseEvents s cid) c * 100
                 else 0)
      else none := by
  unfold calculate_co_attainment
  rw [lookup?_reduce, lookup?_accumulateCo]
  by_cases h : (courseEvents s cid).any (fun e => e.1 == c) <;> simp [h]

theorem filter_flatMap {α β : Type} (l : List α) (f : α → List β)
    (p : β → Bool) :
    (l.flatMap f).filter p = l.flatMap (fun a => (f a).filter p) := by
  induction l with
  | nil => rfl
  | cons a tl ih => simp only [List.flatMap_cons, List.filter_append, ih]

theorem flatMap_congr_on {α β : Type} (l : List α) {f g : α → List β}
    (h : ∀ a ∈ l, f a = g a) : l.flatMap f = l.flatMap g := by
  induction l with
  | nil => rfl
  | cons a tl ih =>
    rw [List.flatMap_cons, List.flatMap_cons, h a (List.mem_cons_self a tl),
      ih (fun b hb => h b (List.mem_cons_of_mem a hb))]

theorem map_flatMap_eq {α β γ : Type} (l : List α) (f : α → List β)
    (g : β → γ) :
    (l.flatMap f).map g = l.flatMap (fun a => (f a).map g) := by
  induction l with
  | nil => rfl
  | cons a tl ih => simp only [List.flatMap_cons, List.map_append, ih]

theorem filter_beq_of_nodup (l : List String) (c : String) (h : l.Nodup) :
    l.filter (fun x => x == c) = if c ∈ l then [c] else [] := by
  induction l with
  | nil => simp
  | cons a tl ih =>
    obtain ⟨hna, htl⟩ := List.nodup_cons.mp h
    by_cases hac : a = c
    · subst hac
      have hnotin : a ∉ tl := hna
      rw [List.filter_cons]
      simp [ih htl, hnotin]
    · rw [List.filter_cons]
      have hb : (a == c) = false := by simp [hac]
      simp only [hb, Bool.false_eq_true, if_false, ih htl]
      have hiff : c ∈ a :: tl ↔ c ∈ tl := by
        constructor
        · intro hm
          rcases List.mem_cons.mp hm with h1 | h2
          · exact absurd h1.symm hac
          · exact h2
        · exact fun hm => List.mem_cons_of_mem a hm
      by_cases hct : c ∈ tl
      · simp [hct, hiff.mpr hct]
      · have hcn : c ∉ a :: tl := fun hm => hct (hiff.mp hm)
        simp [hct, hcn]

theorem scoreEvents_filter (qs : List Question) (sc : ScoreEntry) (c : String)
    (h : ∀ qu, findQuestion qs sc.q = some qu → qu.coIds.Nodup) :
    (scoreEvents qs sc).filter (fun e => e.1 == c) =
      (scoreContribs qs c sc).map (fun p => (c, p.1, p.2)) := by
  unfold scoreEvents scoreContribs
  cases hq : findQuestion qs sc.q with
  | none => rfl
  | some qu =>
    rw [List.filter_map]
    have hcomp : ((fun e : String × ℚ × ℚ => e.1 == c) ∘
        (fun c' => (c', qu.maxMarks, sc.marks))) = fun c' => c' == c := rfl
    rw [hcomp, filter_beq_of_nodup qu.coIds c (h qu hq)]
    by_cases hc : c ∈ qu.coIds <;> simp [hc]

/-- Under duplicate-free `coIds`, the events carrying a CO id are exactly its
matched-pair contributions. -/
theorem courseEvents_filter (s : Store) (cid : String) (c : String)
    (hnodup : ∀ a ∈ assessmentsOfCourse s cid, ∀ qu ∈ a.questions,
      qu.coIds.Nodup) :
    (courseEvents s cid).filter (fun e => e.1 == c) =
      (courseContribs s cid c).map (fun p => (c, p.1, p.2)) := by
  unfold courseEvents courseContribs
  rw [filter_flatMap, map_flatMap_eq]
  refine flatMap_congr_on _ (fun a ha => ?_)
  unfold assessmentEvents
  rw [filter_flatMap, map_flatMap_eq]
  refine flatMap_congr_on _ (fun mk _ => ?_)
  unfold markEvents
  rw [filter_flatMap, map_flatMap_eq]
  refine flatMap_congr_on _ (fun sc _ => ?_)
  exact scoreEvents_filter a.questions sc c
    (fun qu hq => hnodup a ha qu (List.mem_of_find?_eq_some hq))

theorem totalOf_eq_contribs (s : Store) (cid : String) (c : String)
    (hnodup : ∀ a ∈ assessmentsOfCourse s cid, ∀ qu ∈ a.questions,
      qu.coIds.Nodup) :
    totalOf (courseEvents s cid) c =
      ((courseContribs s cid c).map Prod.fst).sum := by
  unfold totalOf
  rw [courseEvents_filter s cid c hnodup, List.map_map]
  rfl

theorem scoredOf_eq_contribs (s : Store) (cid : String) (c : String)
    (hnodup : ∀ a ∈ assessmentsOfCourse s cid, ∀ qu ∈ a.questions,
      qu.coIds.Nodup) :
    scoredOf (courseEvents s cid) c =
      ((courseContribs s cid c).map Prod.snd).sum := by
  unfold scoredOf
  rw [courseEvents_filter s cid c hnodup, List.map_map]
  rfl

/-! ### Bucket lemmas for the PO roll-up. -/

theorem getBucket_nil (k : String) : getBucket [] k = [] := rfl

theorem getBucket_cons (k' : String) (v : List CoEntry)
    (rest : List (String × List CoEntry)) (k : String) :
    getBucket ((k', v) :: rest) k = if k' = k then v else getBucket rest k := by
  unfold getBucket
  rw [lookup?_cons]
  by_cases h : k' = k <;> simp [h]

theorem getBucket_append (bs : List (String × List CoEntry)) (p : String)
    (e : CoEntry) (k : String) :
    getBucket (appendCoEntry bs p e) k =
      if p = k then getBucket bs k ++ [e] else getBucket bs k := by
  induction bs with
  | nil =>
    by_cases h : p = k <;>
      simp [appendCoEntry, getBucket_cons, getBucket_nil, h]
  | cons q rest ih =>
    obtain ⟨k', v⟩ := q
    by_cases h1 : k' = p
    · by_cases h2 : p = k
      · simp [appendCoEntry, h1, h2, getBucket_cons]
      · have h4 : ¬ k' = k := fun hh => h2 (h1 ▸ hh)
        simp [appendCoEntry, h1, h2, h4, getBucket_cons]
    · have h1b : (k' == p) = false := by simp [h1]
      simp only [appendCoEntry, h1b, Bool.false_eq_true, if_false,
        getBucket_cons]
      by_cases h2 : k' = k
      · have h3 : ¬ p = k := fun hh => h1 (h2.trans hh.symm)
        simp [h2, h3]
      · simp [h2, ih]

theorem hasKey_appendCoEntry (bs : List (String × List CoEntry)) (p : String)
    (e : CoEntry) (k : String) :
    hasKey (appendCoEntry bs p e) k = (hasKey bs k || (p == k)) := by
  induction bs with
  | nil =>
    unfold appendCoEntry
    rw [hasKey_cons]
    simp [hasKey_nil, Bool.or_comm]
  | cons q rest ih =>
    obtain ⟨k', v⟩ := q
    by_cases h1 : k' = p
    · have h1b : (k' == p) = true := by simp [h1]
      simp only [appendCoEntry, h1b, if_true, hasKey_cons]
      cases h2 : (k' == k)
      · have hpk : (p == k) = false := by rw [← h1]; exact h2
        simp [hpk]
      · simp [h2]
    · have h1b : (k' == p) = false := by simp [h1]
      simp only [appendCoEntry, h1b, Bool.false_eq_true, if_false,
        hasKey_cons, ih, Bool.or_assoc]

theorem getBucket_foldl (es : List (String × CoEntry))
    (bs : List (String × List CoEntry)) (k : String) :
    getBucket (es.foldl applyBucket bs) k =
      getBucket bs k ++ (es.filter (fun e => e.1 == k)).map (fun e => e.2) := by
  induction es generalizing bs with
  | nil => simp
  | cons e tl ih =>
    rw [List.foldl_cons, ih,
      show applyBucket bs e = appendCoEntry bs e.1 e.2 from rfl,
      getBucket_append, List.filter_cons]
    by_cases h : e.1 = k
    · have hb : (e.1 == k) = true := by simp [h]
      simp [h, hb]
    · have hb : (e.1 == k) = false := by simp [h]
      simp [h, hb]

theorem hasKey_bucket_foldl (es : List (String × CoEntry))
    (bs : List (String × List CoEntry)) (k : String) :
    hasKey (es.foldl applyBucket bs) k =
      (hasKey bs k || es.any (fun e => e.1 == k)) := by
  induction es generalizing bs with
  | nil => simp
  | cons e tl ih =>
    rw [List.foldl_cons, ih, List.any_cons,
      show applyBucket bs e = appendCoEntry bs e.1 e.2 from rfl,
      hasKey_appendCoEntry, Bool.or_assoc]

theorem beq_comm_str (a b : String) : (a == b) = (b == a) := by
  by_cases h : a = b
  · simp [h]
  · have h2 : ¬ b = a := fun hh => h hh.symm
    simp [h, h2]

theorem keys_cons {α : Type} (k' : String) (v : α)
    (rest : List (String × α)) :
    keys ((k', v) :: rest) = k' :: keys rest := rfl

theorem hasKey_eq_keys_contains {α : Type} (m : List (String × α))
    (k : String) : hasKey m k = (keys m).contains k := by
  induction m with
  | nil => rfl
  | cons p rest ih =>
    rw [show p = (p.1, p.2) from rfl, hasKey_cons]
    unfold keys
    rw [List.map_cons, List.contains_cons]
    rw [ih, beq_comm_str]
    rfl

theorem keys_appendCoEntry (bs : List (String × List CoEntry)) (p : String)
    (e : CoEntry) :
    keys (appendCoEntry bs p e) =
      if (keys bs).contains p then keys bs else keys bs ++ [p] := by
  induction bs with
  | nil => simp [appendCoEntry, keys]
  | cons q rest ih =>
    obtain ⟨k', v⟩ := q
    by_cases h1 : k' = p
    · have h1b : (k' == p) = true := by simp [h1]
      have hp : (p == k') = true := by rw [beq_comm_str]; exact h1b
      simp only [appendCoEntry, h1b, if_true, keys_cons, List.contains_cons,
        hp, Bool.true_or, if_pos]
    · have h1b : (k' == p) = false := by simp [h1]
      have hpk : (p == k') = false := by rw [beq_comm_str]; exact h1b
      simp only [appendCoEntry, h1b, Bool.false_eq_true, if_false, keys_cons,
        List.contains_cons, hpk, Bool.false_or, ih]
      by_cases h2 : p ∈ keys rest <;> simp [h2]

theorem keys_bucket_foldl (es : List (String × CoEntry))
    (bs : List (String × List CoEntry)) :
    keys (es.foldl applyBucket bs) =
      (es.map (fun e => e.1)).foldl
        (fun ks k => if ks.contains k then ks else ks ++ [k]) (keys bs) := by
  induction es generalizing bs with
  | nil => rfl
  | cons e tl ih =>
    rw [List.foldl_cons, ih, List.map_cons, List.foldl_cons,
      show applyBucket bs e = appendCoEntry bs e.1 e.2 from rfl,
      keys_appendCoEntry]

theorem any_map_eq {α β : Type} (l : List α) (f : α → β) (p : β → Bool) :
    (l.map f).any p = l.any (fun a => p (f a)) := by
  induction l with
  | nil => rfl
  | cons a tl ih => rw [List.map_cons, List.any_cons, List.any_cons, ih]

theorem poEvents_eq_rowsMap (s : Store) (pid : String) :
    poEvents s pid = (poRows s pid).map (fun r =>
      (r.2.poId, entryOf (calculate_co_attainment s r.1) r.2)) := by
  unfold poEvents poRows
  rw [map_flatMap_eq]
  refine flatMap_congr_on _ (fun c _ => ?_)
  rw [List.map_map]
  rfl

theorem po_attainment_eq_foldl (s : Store) (pid : String) :
    po_attainment s pid = (poEvents s pid).foldl applyBucket [] := by
  unfold po_attainment poEvents
  rw [foldl_flatMap]
  refine foldl_congr_on _ (fun bs c _ => ?_) []
  rw [List.foldl_map]
  rfl

/-! ### Claim theorems. -/

/-- C1 (amended): for every course and every CO id present in the CO
aggregator's output, provided no question lists the same CO id more than
once in its `coIds`, the reported attainment equals `100 * (sum of
score.marks over all matched (question, score) pairs whose question lists
that CO id) / (sum of the matched questions' maxMarks over the same pairs)`,
and equals `0` when that maxMarks sum is not greater than `0`. -/
theorem claim1_attainment_is_ratio_of_pair_sums (s : Store) (cid c : String)
    (v : ℚ)
    (hnodup : ∀ a ∈ assessmentsOfCourse s cid, ∀ qu ∈ a.questions,
      qu.coIds.Nodup)
    (hv : lookup? (calculate_co_attainment s cid) c = some v) :
    v = if 0 < ((courseContribs s cid c).map Prod.fst).sum
        then 100 * ((courseContribs s cid c).map Prod.snd).sum /
             ((courseContribs s cid c).map Prod.fst).sum
        else 0 := by
  rw [lookup?_calculate] at hv
  by_cases hany : (courseEvents s cid).any (fun e => e.1 == c) = true
  · rw [if_pos hany] at hv
    injection hv with hv2
    rw [← hv2, totalOf_eq_contribs s cid c hnodup,
      scoredOf_eq_contribs s cid c hnodup]
    by_cases h0 : 0 < ((courseContribs s cid c).map Prod.fst).sum
    · rw [if_pos h0, if_pos h0]
      ring
    · rw [if_neg h0, if_neg h0]
  · rw [if_neg hany] at hv
    exact absurd hv (by simp)

/-- C1 as literally stated is false: in `dupStore`, question 1 (max 10,
scored 10) lists CO1 twice and question 2 (max 10, scored 0) lists it once,
so the matched pairs give score sum 10 and maxMarks sum 20 and the claimed
formula yields 50, while the aggregator reports 200/3 (it counts question 1
twice). -/
theorem claim1_counterexample :
    lookup? (calculate_co_attainment dupStore "C1") "CO1" = some (200 / 3) ∧
    ((courseContribs dupStore "C1" "CO1").map Prod.fst).sum = 20 ∧
    ((courseContribs dupStore "C1" "CO1").map Prod.snd).sum = 10 ∧
    ((200 : ℚ) / 3 ≠ if 0 < (20 : ℚ) then 100 * 10 / 20 else 0) := by
  have hcontribs : courseContribs dupStore "C1" "CO1" =
      [(10, 10), (10, 0)] := by decide
  refine ⟨?_, ?_, ?_, ?_⟩
  · norm_num [calculate_co_attainment, accumulateCo, assessmentsOfCourse,
      sectionCourseOf, marksOf, processMark, processScore, findQuestion,
      addToCo, reduce, lookup?, dupStore, List.find?, List.filter, List.any]
  · rw [hcontribs]; norm_num
  · rw [hcontribs]; norm_num
  · norm_num

/-- Witness for C1 (amended) at `wStore`: one question worth 10 evaluating
CO1, scored 8; the hypotheses hold and the output value 80 satisfies the
formula. -/
theorem claim1_witness :
    (∀ a ∈ assessmentsOfCourse wStore "C1", ∀ qu ∈ a.questions,
      qu.coIds.Nodup) ∧
    lookup? (calculate_co_attainment wStore "C1") "CO1" = some 80 ∧
    ((80 : ℚ) =
      if 0 < ((courseContribs wStore "C1" "CO1").map Prod.fst).sum
      then 100 * ((courseContribs wStore "C1" "CO1").map Prod.snd).sum /
           ((courseContribs wStore "C1" "CO1").map Prod.fst).sum
      else 0) := by
  have hnd : ∀ a ∈ assessmentsOfCourse wStore "C1", ∀ qu ∈ a.questions,
      qu.coIds.Nodup := by decide
  have hv : lookup? (calculate_co_attainment wStore "C1") "CO1" = some 80 := by
    norm_num [calculate_co_attainment, accumulateCo, assessmentsOfCourse,
      sectionCourseOf, marksOf, processMark, processScore, findQuestion,
      addToCo, reduce, lookup?, wStore, List.find?, List.filter, List.any]
  exact ⟨hnd, hv,
    claim1_attainment_is_ratio_of_pair_sums wStore "C1" "CO1" 80 hnd hv⟩

/-- C2: the aggregator's assessment query dereferences a `course` relation on
the Section model which the model does not declare (so the ORM lookup is
unresolvable and the query raises instead of returning the course's
sections' assessments); over the spec-modelled section-to-course relation,
the iterated set is exactly the assessments whose section belongs to the
course. -/
theorem claim2_section_course_unresolvable :
    aggregatorSectionKeyword ∉ sectionResolvableKeywords ∧
    (∀ (s : Store) (cid : String) (a : Assessment),
      a ∈ assessmentsOfCourse s cid ↔
        a ∈ s.assessments ∧ sectionCourseOf s a.sectionId = some cid) := by
  refine ⟨by decide, fun s cid a => ?_⟩
  unfold assessmentsOfCourse
  rw [List.mem_filter]
  constructor
  · rintro ⟨h1, h2⟩
    exact ⟨h1, by simpa using h2⟩
  · rintro ⟨h1, h2⟩
    exact ⟨h1, by simp [h2]⟩

/-- C3: a matched (question, score) pair whose question lists distinct CO
ids adds the question's full `maxMarks` to the total accumulator and the
score's full `marks` to the scored accumulator of each listed CO,
independently — never divided or split. -/
theorem claim3_fanout_full_amounts (qs : List Question)
    (m : List (String × Accum)) (sc : ScoreEntry) (qu : Question)
    (hfind : findQuestion qs sc.q = some qu) (hnd : qu.coIds.Nodup)
    (c : String) (hc : c ∈ qu.coIds) :
    getAcc (processScore qs m sc) c =
      ⟨(getAcc m c).total_marks + qu.maxMarks,
       (getAcc m c).scored_marks + sc.marks⟩ := by
  rw [processScore_eq_foldl, getAcc_foldl]
  have hse : scoreEvents qs sc =
      qu.coIds.map (fun cc => (cc, qu.maxMarks, sc.marks)) := by
    unfold scoreEvents
    rw [hfind]
  have hfl : (scoreEvents qs sc).filter (fun e => e.1 == c) =
      [(c, qu.maxMarks, sc.marks)] := by
    rw [hse, List.filter_map,
      show ((fun e : String × ℚ × ℚ => e.1 == c) ∘
        (fun cc => (cc, qu.maxMarks, sc.marks))) = fun cc => cc == c from rfl,
      filter_beq_of_nodup qu.coIds c hnd]
    simp [hc]
  have ht : totalOf (scoreEvents qs sc) c = qu.maxMarks := by
    unfold totalOf
    rw [hfl]
    simp
  have hs2 : scoredOf (scoreEvents qs sc) c = sc.marks := by
    unfold scoredOf
    rw [hfl]
    simp
  rw [ht, hs2]

/-- Witness for C3: a question worth 10 with `coIds = [CO1, CO2]`, scored 8,
gives CO2 the full (10, 8). -/
theorem claim3_witness :
    getAcc (processScore [⟨1, 10, ["CO1", "CO2"]⟩] [] ⟨1, 8⟩) "CO2" =
      ⟨(getAcc [] "CO2").total_marks + 10,
       (getAcc [] "CO2").scored_marks + 8⟩ :=
  claim3_fanout_full_amounts [⟨1, 10, ["CO1", "CO2"]⟩] [] ⟨1, 8⟩
    ⟨1, 10, ["CO1", "CO2"]⟩ (by decide) (by decide) "CO2" (by decide)

/-- C4: an identifier matching no stored Program (resp. Course, Student)
makes the corresponding attainment view return its "not found" error, with
no computation attempted and no crash. -/
theorem claim4_not_found (s : Store) (pid cid sid : String)
    (hp : ∀ p ∈ s.programs, p.id ≠ pid)
    (hc : ∀ c ∈ s.courses, c.id ≠ cid)
    (hst : ∀ st ∈ s.students, st.id ≠ sid) :
    programAttainmentGet s pid = .error "Program not found" ∧
    courseAttainmentGet s cid = .error "Course not found" ∧
    studentAttainmentGet s sid = .error "Student not found" := by
  have hp2 : findProgram s pid = none := by
    unfold findProgram
    rw [List.find?_eq_none]
    intro p hpe
    simpa using hp p hpe
  have hc2 : findCourse s cid = none := by
    unfold findCourse
    rw [List.find?_eq_none]
    intro c hce
    simpa using hc c hce
  have hst2 : findStudent s sid = none := by
    unfold findStudent
    rw [List.find?_eq_none]
    intro st hse
    simpa using hst st hse
  refine ⟨?_, ?_, ?_⟩
  · unfold programAttainmentGet
    rw [hp2]
  · unfold courseAttainmentGet
    rw [hc2]
  · unfold studentAttainmentGet
    rw [hst2]

/-- Witness for C4 at the empty store. -/
theorem claim4_witness :
    programAttainmentGet emptyStore "P9" = .error "Program not found" ∧
    courseAttainmentGet emptyStore "C9" = .error "Course not found" ∧
    studentAttainmentGet emptyStore "S9" = .error "Student not found" :=
  claim4_not_found emptyStore "P9" "C9" "S9" (by decide) (by decide)
    (by decide)

/-- C5: a score entry whose `q` matches no question of the assessment
contributes nothing (the accumulator is returned unchanged, no error), and
when several questions share the score's `q`, the first match in list order
is the one used. -/
theorem claim5_missing_question_skip_first_match (qs l1 l2 : List Question)
    (qu : Question) (sc : ScoreEntry) (m : List (String × Accum)) :
    (findQuestion qs sc.q = none → processScore qs m sc = m) ∧
    (qs = l1 ++ qu :: l2 → qu.q = sc.q → (∀ q2 ∈ l1, q2.q ≠ sc.q) →
      findQuestion qs sc.q = some qu ∧
      processScore qs m sc =
        qu.coIds.foldl (fun acc cc => addToCo acc cc qu.maxMarks sc.marks)
          m) := by
  constructor
  · intro h
    unfold processScore
    rw [h]
  · intro hqs hq hl1
    have hfind : findQuestion qs sc.q = some qu := by
      subst hqs
      unfold findQuestion
      rw [List.find?_append]
      have h1 : List.find? (fun q2 => q2.q == sc.q) l1 = none := by
        rw [List.find?_eq_none]
        intro q2 hq2
        simpa using hl1 q2 hq2
      rw [h1, List.find?_cons_of_pos _ (by simp [hq])]
      rfl
    refine ⟨hfind, ?_⟩
    unfold processScore
    rw [hfind]

/-- Witness for C5: an assessment with questions numbered 1, 2, 2; a score
for the absent question 3 contributes nothing, and a score for question 2
uses the first question numbered 2 (max 7, CO list [COb]). -/
theorem claim5_witness :
    processScore [⟨1, 5, ["COa"]⟩, ⟨2, 7, ["COb"]⟩, ⟨2, 9, ["COc"]⟩] []
      ⟨3, 1⟩ = [] ∧
    processScore [⟨1, 5, ["COa"]⟩, ⟨2, 7, ["COb"]⟩, ⟨2, 9, ["COc"]⟩] []
      ⟨2, 4⟩ = [("COb", ⟨7, 4⟩)] := by
  constructor
  · exact (claim5_missing_question_skip_first_match
      [⟨1, 5, ["COa"]⟩, ⟨2, 7, ["COb"]⟩, ⟨2, 9, ["COc"]⟩] [] []
      ⟨1, 5, ["COa"]⟩ ⟨3, 1⟩ []).1 (by decide)
  · have h := (claim5_missing_question_skip_first_match
      [⟨1, 5, ["COa"]⟩, ⟨2, 7, ["COb"]⟩, ⟨2, 9, ["COc"]⟩]
      [⟨1, 5, ["COa"]⟩] [⟨2, 9, ["COc"]⟩] ⟨2, 7, ["COb"]⟩ ⟨2, 4⟩ []).2
      (by decide) (by decide) (by decide)
    rw [h.2]
    decide

/-- C9: for the existing course C1 and program P1 of `wStore`, the directly
invoked attainment views succeed, but the report views — whose delegated
attainment view is instantiated outside dispatch and so reads an unassigned
`kwargs` attribute — surface the AttributeError crash instead of the
attainment payload, so the report responses differ from the attainment
responses. -/
theorem claim9_report_views_crash :
    courseReportGet wStore "C1" = .error "AttributeError: kwargs" ∧
    programReportGet wStore "P1" = .error "AttributeError: kwargs" ∧
    (courseAttainmentGet wStore "C1").isOk = true ∧
    (programAttainmentGet wStore "P1").isOk = true ∧
    courseReportGet wStore "C1" ≠ courseAttainmentGet wStore "C1" ∧
    programReportGet wStore "P1" ≠ programAttainmentGet wStore "P1" := by
  refine ⟨rfl, rfl, rfl, rfl, ?_, ?_⟩
  · intro h
    have h2 : (Except.error "AttributeError: kwargs" :
        Except String (Course × List (String × ℚ))) =
        Except.ok ((⟨"C1", "P1"⟩ : Course),
          calculate_co_attainment wStore "C1") := h
    exact Except.noConfusion h2
  · intro h
    have h2 : (Except.error "AttributeError: kwargs" :
        Except String (Program × List (String × List CoEntry))) =
        Except.ok ((⟨"P1"⟩ : Program), po_attainment wStore "P1") := h
    exact Except.noConfusion h2

/-- C6: in the PO roll-up, every mapping row of every course of the program
produces exactly one entry `{co, attainment, mapping_level}` in the bucket
of its PO, in row iteration order, with a CO id absent from the aggregator's
output carried as attainment 0 rather than an error; a bucket exists exactly
when some row references its PO, and buckets appear in first-encounter order
of PO ids. -/
theorem claim6_po_rollup_buckets (s : Store) (pid p : String) :
    (lookup? (po_attainment s pid) p =
      (if ((poRows s pid).filter (fun r => r.2.poId == p)).isEmpty
       then none
       else some (((poRows s pid).filter (fun r => r.2.poId == p)).map
         (fun r =>
           { co := r.2.coId
             attainment :=
               match lookup? (calculate_co_attainment s r.1) r.2.coId with
               | some v => v
               | none => 0
             mapping_level := r.2.level })))) ∧
    keys (po_attainment s pid) =
      ((poRows s pid).map (fun r => r.2.poId)).foldl
        (fun ks k => if ks.contains k then ks else ks ++ [k]) [] := by
  have hev : poEvents s pid = (poRows s pid).map (fun r =>
      (r.2.poId, entryOf (calculate_co_attainment s r.1) r.2)) :=
    poEvents_eq_rowsMap s pid
  have hfun : (fun r : String × CoPoMapping =>
      ({ co := r.2.coId
         attainment :=
           match lookup? (calculate_co_attainment s r.1) r.2.coId with
           | some v => v
           | none => 0
         mapping_level := r.2.level } : CoEntry)) =
      fun r => entryOf (calculate_co_attainment s r.1) r.2 := by
    funext r
    cases h : lookup? (calculate_co_attainment s r.1) r.2.coId <;>
      simp [entryOf, h]
  constructor
  · have hhk : hasKey ((poEvents s pid).foldl applyBucket []) p =
        (poEvents s pid).any (fun e => e.1 == p) := by
      rw [hasKey_bucket_foldl]
      simp [hasKey_nil]
    have hgb : getBucket ((poEvents s pid).foldl applyBucket []) p =
        ((poEvents s pid).filter (fun e => e.1 == p)).map (fun e => e.2) := by
      rw [getBucket_foldl]
      simp [getBucket_nil]
    have hfilter : (poEvents s pid).filter (fun e => e.1 == p) =
        ((poRows s pid).filter (fun r => r.2.poId == p)).map (fun r =>
          (r.2.poId, entryOf (calculate_co_attainment s r.1) r.2)) := by
      rw [hev, List.filter_map]
      rfl
    have hany2 : (poEvents s pid).any (fun e => e.1 == p) =
        (poRows s pid).any (fun r => r.2.poId == p) := by
      rw [hev, any_map_eq]
    rw [po_attainment_eq_foldl,
      lookup?_eq_getD_of_hasKey ((poEvents s pid).foldl applyBucket []) p
        ([] : List CoEntry), hhk, hany2]
    by_cases hb : (poRows s pid).any (fun r => r.2.poId == p) = true
    · rw [if_pos hb]
      rcases List.any_eq_true.mp hb with ⟨r, hr, hpr⟩
      have hne : ((poRows s pid).filter (fun r => r.2.poId == p)).isEmpty =
          false := by
        cases hfe : ((poRows s pid).filter (fun r => r.2.poId == p)).isEmpty
        · rfl
        · exfalso
          have hnil : (poRows s pid).filter (fun r => r.2.poId == p) = [] :=
            List.isEmpty_iff.mp hfe
          have hmem : r ∈ (poRows s pid).filter (fun r => r.2.poId == p) :=
            List.mem_filter.mpr ⟨hr, hpr⟩
          rw [hnil] at hmem
          exact absurd hmem (List.not_mem_nil r)
      simp only [hne, Bool.false_eq_true, if_false]
      congr 1
      rw [show (lookup? ((poEvents s pid).foldl applyBucket []) p).getD [] =
        getBucket ((poEvents s pid).foldl applyBucket []) p from rfl, hgb,
        hfilter, List.map_map, hfun]
      rfl
    · have hbf : (poRows s pid).any (fun r => r.2.poId == p) = false := by
        cases hx : (poRows s pid).any (fun r => r.2.poId == p)
        · rfl
        · exact absurd hx hb
      simp only [hbf, Bool.false_eq_true, if_false]
      have hemp : (poRows s pid).filter (fun r => r.2.poId == p) = [] := by
        rw [List.filter_eq_nil_iff]
        intro r hr hpr
        have hat : (poRows s pid).any (fun r => r.2.poId == p) = true :=
          List.any_eq_true.mpr ⟨r, hr, hpr⟩
        rw [hat] at hbf
        exact absurd hbf (by simp)
      rw [hemp]
      rfl
  · rw [po_attainment_eq_foldl, keys_bucket_foldl,
      show keys ([] : List (String × List CoEntry)) = [] from rfl, hev,
      List.map_map]
    rfl

/-- C7: the student-scoped view considers, per enrollment of the student,
exactly the assessments of the enrollment's (course, section) pair; for each
such assessment the mark of (student, assessment) is used when one exists
and a missing mark is silently skipped; the per-score accumulation
(`processMark`) and the final reduction (`reduce`) are the course-level
aggregator's. -/
theorem claim7_student_scoped (s : Store) (sid : String) :
    studentCoAttainment s sid = reduce
      ((enrollmentsOf s sid).foldl (fun acc e =>
        ((assessmentsOfCourse s e.courseId).filter
            (fun a => some a.sectionId == e.sectionId)).foldl
          (fun acc a =>
            match s.marks.find? (fun mk =>
                mk.assessmentId == a.id && mk.studentId == sid) with
            | none => acc
            | some mk => processMark a.questions acc mk)
          acc)
        []) ∧
    (∀ (acc : List (String × Accum)) (a : Assessment),
      s.marks.find? (fun mk => mk.assessmentId == a.id &&
        mk.studentId == sid) = none →
      (match s.marks.find? (fun mk => mk.assessmentId == a.id &&
          mk.studentId == sid) with
       | none => acc
       | some mk => processMark a.questions acc mk) = acc) := by
  constructor
  · have hlist : ∀ e : Enrollment,
        s.assessments.filter (fun a =>
          sectionCourseOf s a.sectionId == some e.courseId &&
          some a.sectionId == e.sectionId) =
        (assessmentsOfCourse s e.courseId).filter
          (fun a => some a.sectionId == e.sectionId) := by
      intro e
      unfold assessmentsOfCourse
      rw [List.filter_filter]
      refine List.filter_congr (fun a _ => ?_)
      exact Bool.and_comm _ _
    have hacc : studentCoAccum s sid =
        (enrollmentsOf s sid).foldl (fun acc e =>
          ((assessmentsOfCourse s e.courseId).filter
              (fun a => some a.sectionId == e.sectionId)).foldl
            (fun acc a =>
              match s.marks.find? (fun mk =>
                  mk.assessmentId == a.id && mk.studentId == sid) with
              | none => acc
              | some mk => processMark a.questions acc mk)
            acc)
          [] := by
      unfold studentCoAccum
      refine foldl_congr_on _ (fun acc e _ => ?_) []
      rw [hlist e]
      rfl
    show reduce (studentCoAccum s sid) = _
    exact congrArg reduce hacc
  · intro acc a h
    rw [h]

/-- Witness for C7 at `wStore`: assessment id A2 carries no mark of student
ST1, so the mark-processing step leaves the accumulator unchanged. -/
theorem claim7_witness :
    (match wStore.marks.find? (fun mk =>
        mk.assessmentId == (⟨"A2", "S1", []⟩ : Assessment).id &&
        mk.studentId == "ST1") with
     | none => ([] : List (String × Accum))
     | some mk =>
        processMark (⟨"A2", "S1", []⟩ : Assessment).questions [] mk) = [] :=
  (claim7_student_scoped wStore "ST1").2 [] ⟨"A2", "S1", []⟩ (by decide)

/-- C8: if every matched score is between 0 and its question's maxMarks and
every maxMarks is nonnegative, every percentage the aggregator outputs lies
in [0, 100]; without the precondition no clamping is applied — `overStore`
scores 15 on a question worth 10 and the aggregator reports 150. -/
theorem claim8_bounds_and_no_clamp (s : Store) (cid : String)
    (hq : ∀ a ∈ assessmentsOfCourse s cid, ∀ qu ∈ a.questions,
      0 ≤ qu.maxMarks)
    (hm : ∀ a ∈ assessmentsOfCourse s cid, ∀ mk ∈ marksOf s a,
      ∀ sc ∈ mk.scores, ∀ qu ∈ a.questions,
        findQuestion a.questions sc.q = some qu →
          0 ≤ sc.marks ∧ sc.marks ≤ qu.maxMarks) :
    (∀ c v, lookup? (calculate_co_attainment s cid) c = some v →
      0 ≤ v ∧ v ≤ 100) ∧
    lookup? (calculate_co_attainment overStore "C1") "CO1" = some 150 := by
  constructor
  · intro c v hv
    have hbounds : ∀ e ∈ courseEvents s cid,
        0 ≤ e.2.1 ∧ 0 ≤ e.2.2 ∧ e.2.2 ≤ e.2.1 := by
      intro e he
      unfold courseEvents at he
      rw [List.mem_flatMap] at he
      obtain ⟨a, ha, he⟩ := he
      unfold assessmentEvents at he
      rw [List.mem_flatMap] at he
      obtain ⟨mk, hmk, he⟩ := he
      unfold markEvents at he
      rw [List.mem_flatMap] at he
      obtain ⟨sc, hsc, he⟩ := he
      unfold scoreEvents at he
      cases hfq : findQuestion a.questions sc.q with
      | none =>
        rw [hfq] at he
        exact absurd he (List.not_mem_nil e)
      | some qu =>
        rw [hfq] at he
        rw [List.mem_map] at he
        obtain ⟨cc, hcc, hecc⟩ := he
        have hqmem : qu ∈ a.questions := List.mem_of_find?_eq_some hfq
        have h1 := hq a ha qu hqmem
        have h2 := hm a ha mk hmk sc hsc qu hqmem hfq
        rw [← hecc]
        exact ⟨h1, h2.1, h2.2⟩
    have hT : 0 ≤ totalOf (courseEvents s cid) c ∧
        0 ≤ scoredOf (courseEvents s cid) c ∧
        scoredOf (courseEvents s cid) c ≤ totalOf (courseEvents s cid) c := by
      unfold totalOf scoredOf
      refine ⟨List.sum_nonneg ?_, List.sum_nonneg ?_, List.sum_le_sum ?_⟩
      · intro x hx
        rw [List.mem_map] at hx
        obtain ⟨e, he, hex⟩ := hx
        rw [← hex]
        exact (hbounds e (List.mem_of_mem_filter he)).1
      · intro x hx
        rw [List.mem_map] at hx
        obtain ⟨e, he, hex⟩ := hx
        rw [← hex]
        exact (hbounds e (List.mem_of_mem_filter he)).2.1
      · intro e he
        exact (hbounds e (List.mem_of_mem_filter he)).2.2
    rw [lookup?_calculate] at hv
    by_cases hany : (courseEvents s cid).any (fun e => e.1 == c) = true
    · rw [if_pos hany] at hv
      injection hv with hv2
      rw [← hv2]
      by_cases h0 : totalOf (courseEvents s cid) c > 0
      · rw [if_pos h0]
        constructor
        · exact mul_nonneg (div_nonneg hT.2.1 (le_of_lt h0)) (by norm_num)
        · have hle1 : scoredOf (courseEvents s cid) c /
              totalOf (courseEvents s cid) c ≤ 1 :=
            (div_le_one h0).mpr hT.2.2
          calc scoredOf (courseEvents s cid) c /
              totalOf (courseEvents s cid) c * 100
              ≤ 1 * 100 := mul_le_mul_of_nonneg_right hle1 (by norm_num)
            _ = 100 := by norm_num
      · rw [if_neg h0]
        norm_num
    · rw [if_neg hany] at hv
      exact absurd hv (by simp)
  · norm_num [calculate_co_attainment, accumulateCo, assessmentsOfCourse,
      sectionCourseOf, marksOf, processMark, processScore, findQuestion,
      addToCo, reduce, lookup?, overStore, List.find?, List.filter, List.any]

/-- Witness for C8 at `wStore`: the single output value 80 lies in [0, 100]. -/
theorem claim8_witness : 0 ≤ (80 : ℚ) ∧ (80 : ℚ) ≤ 100 :=
  (claim8_bounds_and_no_clamp wStore "C1" (by decide) (by decide)).1 "CO1" 80
    (by norm_num [calculate_co_attainment, accumulateCo, assessmentsOfCourse,
      sectionCourseOf, marksOf, processMark, processScore, findQuestion,
      addToCo, reduce, lookup?, wStore, List.find?, List.filter, List.any])

/-- C10: a CO id is a key of the aggregator's output exactly when some score
entry matches a question listing that id in its `coIds` (so an unmatched
CourseOutcome is absent, not 0), and the output never consults the stored
CourseOutcome table (replacing it changes nothing), so ids without a
CourseOutcome record can appear. -/
theorem claim10_output_keys (s : Store) (cid c : String)
    (l : List CourseOutcome) :
    ((lookup? (calculate_co_attainment s cid) c).isSome = true ↔
      ∃ a ∈ assessmentsOfCourse s cid, ∃ mk ∈ marksOf s a, ∃ sc ∈ mk.scores,
        ∃ qu, findQuestion a.questions sc.q = some qu ∧ c ∈ qu.coIds) ∧
    calculate_co_attainment { s with courseOutcomes := l } cid =
      calculate_co_attainment s cid := by
  constructor
  · have hiso : (lookup? (calculate_co_attainment s cid) c).isSome =
        (courseEvents s cid).any (fun e => e.1 == c) := by
      rw [lookup?_calculate]
      by_cases h : (courseEvents s cid).any (fun e => e.1 == c) = true
      · simp [h]
      · have hf : (courseEvents s cid).any (fun e => e.1 == c) = false := by
          cases hx : (courseEvents s cid).any (fun e => e.1 == c)
          · rfl
          · exact absurd hx h
        simp [hf]
    rw [hiso, List.any_eq_true]
    constructor
    · rintro ⟨e, he, hbeq⟩
      unfold courseEvents at he
      rw [List.mem_flatMap] at he
      obtain ⟨a, ha, he⟩ := he
      unfold assessmentEvents at he
      rw [List.mem_flatMap] at he
      obtain ⟨mk, hmk, he⟩ := he
      unfold markEvents at he
      rw [List.mem_flatMap] at he
      obtain ⟨sc, hsc, he⟩ := he
      unfold scoreEvents at he
      cases hfq : findQuestion a.questions sc.q with
      | none =>
        rw [hfq] at he
        exact absurd he (List.not_mem_nil e)
      | some qu =>
        rw [hfq] at he
        rw [List.mem_map] at he
        obtain ⟨cc, hcc, hecc⟩ := he
        have hcc2 : cc = c := by
          have he1 : e.1 = c := by simpa using hbeq
          rw [← hecc] at he1
          exact he1
        exact ⟨a, ha, mk, hmk, sc, hsc, qu, hfq, hcc2 ▸ hcc⟩
    · rintro ⟨a, ha, mk, hmk, sc, hsc, qu, hfq, hcm⟩
      refine ⟨(c, qu.maxMarks, sc.marks), ?_, by simp⟩
      unfold courseEvents
      rw [List.mem_flatMap]
      refine ⟨a, ha, ?_⟩
      unfold assessmentEvents
      rw [List.mem_flatMap]
      refine ⟨mk, hmk, ?_⟩
      unfold markEvents
      rw [List.mem_flatMap]
      refine ⟨sc, hsc, ?_⟩
      unfold scoreEvents
      rw [hfq, List.mem_map]
      exact ⟨c, hcm, rfl⟩
  · rfl

end OBE
